import Mathlib

/-!
# Verification of the mimi-context retrieval UI against its specification

This file shallowly embeds the algorithmic parts of the `mimi-context`
repository (the `mimi-web` React client: result rendering, snippet
generation, keyword highlighting, citation-marker parsing, and the API
client's error handling) together with the spec-level contract of the
retrieval engine, and proves or refutes the frozen claims about them.

Text is modelled as Lean `String` / `List Char`; JavaScript numbers used
as similarity scores are modelled as `ℚ` (only order comparisons on them
matter); fallible network calls are modelled as `Except` values.
-/

namespace Mimi

/-- The `Chunk` record of `src/types/api.ts`: the outward-facing shape of a
query-result chunk.  Required fields are plain, optional (`?`) fields are
`Option`. -/
structure Chunk where
  chunk_id : String
  doc_id : String
  source : String
  path : String
  score : ℚ
  snippet : String
  full_text : Option String
  section_title : Option String
  char_start : Option Nat
  char_end : Option Nat
  deriving Repr, DecidableEq

/-- The `Citation` record of `src/types/api.ts`. -/
structure Citation where
  doc_id : String
  path : String
  deriving Repr, DecidableEq

/-- The `AgentResponse` record of `src/types/api.ts`: what `/agent/ask`
returns. -/
structure AgentResponse where
  answer : String
  citations : List Citation
  raw_chunks : List Chunk
  deriving Repr, DecidableEq

/-! ## Search result rendering (`SearchForm.tsx`: `ResultItem`, `SearchResults`) -/

/-- One rendered result card, as produced by `ResultItem`: the chunk it
displays together with its low-confidence flag
(`isLowConfidence = chunk.score < config.confidenceThreshold`). -/
structure RenderedResult where
  chunk : Chunk
  lowConfidence : Bool
  deriving Repr, DecidableEq

/-- `ResultItem` in `SearchForm.tsx`: renders one chunk and computes
`isLowConfidence = chunk.score < config.confidenceThreshold`. -/
def renderResultItem (threshold : ℚ) (c : Chunk) : RenderedResult :=
  { chunk := c, lowConfidence := decide (c.score < threshold) }

/-- `SearchResults` in `SearchForm.tsx`: maps over every chunk of the
response, producing one `ResultItem` per chunk. -/
def renderSearchResults (threshold : ℚ) (chunks : List Chunk) : List RenderedResult :=
  chunks.map (renderResultItem threshold)

/-! ## API client (`src/services/api.ts`) -/

/-- The parts of an axios error object that `api.ts` inspects: the error
`code` (`"ECONNABORTED"` on timeout), and — when an HTTP response was
received at all — its status and the optional `message` field of its body. -/
structure AxiosError where
  code : Option String
  responseStatus : Option Nat
  responseMessage : Option String
  deriving Repr, DecidableEq

/-- JavaScript `a || b` on strings (empty string is falsy), applied to an
optional field access `data?.message || fallback`. -/
def jsOrElse (m : Option String) (fallback : String) : String :=
  match m with
  | some s => if s = "" then fallback else s
  | none => fallback

/-- `getErrorMessage` in `api.ts`: derives the user-facing error message
from the failure (timeout code, absent response, or HTTP status). -/
def getErrorMessage (e : AxiosError) : String :=
  if e.code = some "ECONNABORTED" then
    "Request timeout. Please try again."
  else
    match e.responseStatus with
    | none => "Network error. Please check your connection."
    | some status =>
      if status = 400 then jsOrElse e.responseMessage "Invalid request"
      else if status = 401 then "Unauthorized. Please check your API key."
      else if status = 403 then "Access forbidden"
      else if status = 404 then "Endpoint not found"
      else if status = 429 then "Rate limit exceeded. Please try again later."
      else if status = 500 then "Server error. Please try again."
      else jsOrElse e.responseMessage ("Request failed (" ++ toString status ++ ")")

/-- The response interceptor installed on the axios instance in `api.ts`:
successful responses pass through unchanged; errors surface
`getErrorMessage` (via toast) and are re-rejected.  The surfaced message is
paired with the error in the rejection. -/
def interceptResponse {α : Type} (r : Except AxiosError α) :
    Except (AxiosError × String) α :=
  match r with
  | .ok v => .ok v
  | .error e => .error (e, getErrorMessage e)

/-- `RAGQueryResponse` of `src/types/api.ts`. -/
structure RAGQueryResponse where
  chunks : List Chunk
  deriving Repr, DecidableEq

/-- `apiService.queryRAG` in `api.ts`: POSTs the request and resolves with
`response.data`; the underlying transport outcome is the `raw` argument,
filtered through the response interceptor. -/
def queryRAG (raw : Except AxiosError RAGQueryResponse) :
    Except (AxiosError × String) RAGQueryResponse :=
  interceptResponse raw

/-- `apiService.checkAgentAvailability` in `api.ts`: OPTIONS `/agent/ask`;
on success `true`; on failure `axiosError.response?.status !== 404`. -/
def checkAgentAvailability (result : Except AxiosError Unit) : Bool :=
  match result with
  | .ok _ => true
  | .error e => decide (e.responseStatus ≠ some 404)

/-! ## Text utilities (`src/utils/text.ts`)

JavaScript strings are modelled as `List Char` (with `String` wrappers for
the exported functions); `str.slice`, `indexOf`, `lastIndexOf`, `trim`,
`toLowerCase`, `includes` and `split(/\s+/)` are modelled below.
`toLowerCase` is modelled with `Char.toLower` and `\s` with
`Char.isWhitespace` (exact on the ASCII inputs these claims use). -/

/-- JS `text.slice(a, b)` for `0 ≤ a` and `0 ≤ b` (the only uses here). -/
def jsSlice (l : List Char) (a b : Nat) : List Char := (l.take b).drop a

/-- JS `text.trim()`. -/
def jsTrim (l : List Char) : List Char :=
  ((l.dropWhile Char.isWhitespace).reverse.dropWhile Char.isWhitespace).reverse

/-- JS `query.split(/\s+/).filter(Boolean)`: split at whitespace runs and
drop the empty fragments. -/
def splitWsWords (l : List Char) : List (List Char) :=
  (l.splitOnP Char.isWhitespace).filter (fun w => !w.isEmpty)

/-- `p` is a literal (case-sensitive) leading segment of `s`. -/
def startsWithSeg : List Char → List Char → Bool
  | [], _ => true
  | _ :: _, [] => false
  | a :: as, b :: bs => (a == b) && startsWithSeg as bs

/-- JS `s.includes(sub)`: `sub` occurs contiguously in `s`. -/
def hasSeg : List Char → List Char → Bool
  | [], sub => sub.isEmpty
  | c :: rest, sub => startsWithSeg sub (c :: rest) || hasSeg rest sub

/-- `w` matches at the head of `s` case-insensitively (as a JS `i`-flag
regex match of the escaped literal `w`). -/
def matchesAt : List Char → List Char → Bool
  | [], _ => true
  | _ :: _, [] => false
  | a :: as, b :: bs => (a.toLower == b.toLower) && matchesAt as bs

/-- `w` occurs in `s` case-insensitively (at some position). -/
def occursCI (w : List Char) : List Char → Bool
  | [] => matchesAt w []
  | c :: rest => matchesAt w (c :: rest) || occursCI w rest

/-- JS `text.lastIndexOf(" ", fromIdx)` specialised to one-character search
strings: the largest position `≤ fromIdx` holding `c`, else `-1`
(a negative `fromIdx` is treated as `0`). -/
def jsLastIndexOfChar (l : List Char) (c : Char) (fromIdx : Int) : Int :=
  let f : Nat := fromIdx.toNat
  match ((List.range l.length).filter
      (fun p => decide (p ≤ f) && (l[p]? == some c))).getLast? with
  | some p => (p : Int)
  | none => -1

/-- JS `text.indexOf(" ", fromIdx)` specialised to one-character search
strings: the smallest position `≥ fromIdx` holding `c`, else `-1`
(a negative `fromIdx` is treated as `0`). -/
def jsIndexOfChar (l : List Char) (c : Char) (fromIdx : Int) : Int :=
  let f : Nat := fromIdx.toNat
  match ((List.range l.length).filter
      (fun p => decide (f ≤ p) && (l[p]? == some c))).head? with
  | some p => (p : Int)
  | none => -1

/-- The window score of `generateSnippet`: the `reduce` that counts how
many query words the (lowercased) segment contains. -/
def scoreWindow (words : List (List Char)) (seg : List Char) : Nat :=
  words.foldl (fun acc w => acc + (if hasSeg seg w then 1 else 0)) 0

/-- The scanning loop of `generateSnippet`: candidate window starts
`i = 0, 10, 20, …` while `i < text.length - maxLength`, keeping the first
window whose score strictly exceeds the best so far (initially score `0`
at index `0`). -/
def bestWindow (lowerText : List Char) (words : List (List Char))
    (maxLen L : Nat) : Nat :=
  let idxs := (List.range ((L - maxLen + 9) / 10)).map (fun k => 10 * k)
  (idxs.foldl
    (fun (best : Nat × Nat) i =>
      let sc := scoreWindow words (jsSlice lowerText i (i + maxLen))
      if sc > best.1 then (sc, i) else best) (0, 0)).2

/-- `generateSnippet` from `src/utils/text.ts`, on `List Char`:
guard empty text/query; find the best-scoring keyword window at stride 10;
adjust both ends to word boundaries (`lastIndexOf`/`indexOf` of a space
within 20 characters); trim; add `"..."` on each truncated side. -/
def generateSnippetL (text query : List Char) (maxLen : Nat) : List Char :=
  if text = [] ∨ query = [] then text.take maxLen
  else
    let words := splitWsWords (query.map Char.toLower)
    let lowerText := text.map Char.toLower
    let L := text.length
    let bestIndex := bestWindow lowerText words maxLen L
    let start0 := bestIndex
    let end0 := min (bestIndex + maxLen) L
    let start1 :=
      if 0 < start0 then
        let si := jsLastIndexOfChar text ' ' ((start0 : Int) + 20)
        if (start0 : Int) < si then si.toNat + 1 else start0
      else start0
    let end1 :=
      if end0 < L then
        let si := jsIndexOfChar text ' ' ((end0 : Int) - 20)
        if 0 < si ∧ si < (L : Int) then si.toNat else end0
      else end0
    let snip0 := jsTrim (jsSlice text start1 end1)
    let snip1 := if 0 < start1 then '.' :: '.' :: '.' :: snip0 else snip0
    if end1 < L then snip1 ++ ['.', '.', '.'] else snip1

/-- `generateSnippet(text, query, maxLength)` (the source's default
`maxLength` is `250`; callers that omit it pass `250` here). -/
def generateSnippet (text query : String) (maxLength : Nat) : String :=
  ⟨generateSnippetL text.toList query.toList maxLength⟩

/-- `getChunkDisplayText` from `src/utils/text.ts`: prefer the stored
snippet (JS truthiness: present and non-empty), else generate one from
`full_text` (again truthiness), else a fixed placeholder. -/
def getChunkDisplayText (chunk : Chunk) (query : String) : String :=
  if chunk.snippet ≠ "" then chunk.snippet
  else
    match chunk.full_text with
    | some t => if t ≠ "" then generateSnippet t query 250 else "No content available"
    | none => "No content available"

/-! ## Keyword highlighting (`highlightText`, `escapeRegExp`) -/

/-- The characters escaped by `escapeRegExp` (`[.*+?^${}()|[\]\\]`). -/
def regexSpecials : List Char :=
  ['.', '*', '+', '?', '^', '$', '\x7b', '\x7d', '(', ')', '|', '[', ']', '\\']

/-- `escapeRegExp` from `src/utils/text.ts`: prefix every regex
metacharacter with a backslash, so the word matches as a literal. -/
def escapeRegExpL (l : List Char) : List Char :=
  (l.map (fun c => if c ∈ regexSpecials then ['\\', c] else [c])).flatten

/-- `escapeRegExp` on `String`. -/
def escapeRegExp (s : String) : String := ⟨escapeRegExpL s.toList⟩

/-- The opening markup `highlightText` inserts before each match. -/
def wrapOpen : List Char :=
  "<mark class=\"bg-yellow-200 dark:bg-yellow-800 px-1 rounded\">".toList

/-- The closing markup `highlightText` inserts after each match. -/
def wrapClose : List Char := "</mark>".toList

/-- One `highlightedText.replace(regex, '<mark …>$1</mark>')` step of
`highlightText`, where `regex = new RegExp("(" + escapeRegExp(word) + ")", "gi")`.
Because the word is escaped, the pattern matches exactly the literal word,
case-insensitively; the global replace scans left to right, wraps each
(leftmost, non-overlapping) match — `$1` is the matched text with its
original casing — and resumes after it. -/
def replaceCIAux (w : List Char) : Nat → List Char → List Char
  | _, [] => []
  | 0, s => s
  | fuel + 1, c :: rest =>
    if w ≠ [] ∧ matchesAt w (c :: rest) then
      wrapOpen ++ (c :: rest).take w.length ++ wrapClose ++
        replaceCIAux w fuel (rest.drop (w.length - 1))
    else
      c :: replaceCIAux w fuel rest

/-- The replace step itself.  Each scan step consumes at least one
character, so `s.length` steps of fuel always suffice; the fuel only makes
the recursion structural. -/
def replaceCI (w s : List Char) : List Char := replaceCIAux w s.length s

/-- `highlightText` from `src/utils/text.ts`, on `List Char`: empty query
returns the text; otherwise each whitespace-separated query word is
substituted in turn, each substitution operating on the previous
substitution's output. -/
def highlightTextL (text query : List Char) : List Char :=
  if query = [] then text
  else (splitWsWords query).foldl (fun acc w => replaceCI w acc) text

/-- `highlightText` on `String`. -/
def highlightText (text query : String) : String :=
  ⟨highlightTextL text.toList query.toList⟩

/-- `w` appears somewhere in `s` wrapped in the mark element: at some
position `s` reads `wrapOpen ++ m ++ wrapClose ++ …` where `m` equals `w`
case-insensitively. -/
def wrappedAt (w s : List Char) : Bool :=
  startsWithSeg wrapOpen s &&
  matchesAt w (s.drop wrapOpen.length) &&
  startsWithSeg wrapClose ((s.drop wrapOpen.length).drop w.length)

/-- Some case-insensitive occurrence of `w` in `s` is wrapped in a mark
element. -/
def hasWrappedCI (w : List Char) : List Char → Bool
  | [] => wrappedAt w []
  | c :: rest => wrappedAt w (c :: rest) || hasWrappedCI w rest

/-! ## Citation-marker parsing (`ChatMessage.tsx`, `parsedContent`)

`content.replace(/\[(\d+)\]/g, cb)` is modelled by tokenising the content
with the same leftmost scan the regex engine performs — at each `[`, a
maximal non-empty digit run followed by `]` is a marker match, anything
else falls through as a plain character — and rendering each token through
the callback. -/

/-- A token of the citation-marker scan: a matched `[digits]` marker, or
one plain character. -/
inductive Tok where
  | marker (ds : List Char)
  | chr (c : Char)
  deriving Repr, DecidableEq

/-- The leftmost scan of `/\[(\d+)\]/g`: at a `[` whose following maximal
digit run is non-empty and is followed by `]`, emit a marker and resume
after the `]`; otherwise emit the character and resume at the next one. -/
def tokenizeAux : Nat → List Char → List Tok
  | _, [] => []
  | 0, s => s.map Tok.chr
  | fuel + 1, c :: rest =>
    if c = '[' ∧ rest.takeWhile Char.isDigit ≠ [] ∧
        (rest.dropWhile Char.isDigit).head? = some ']' then
      Tok.marker (rest.takeWhile Char.isDigit) ::
        tokenizeAux fuel (rest.dropWhile Char.isDigit).tail
    else
      Tok.chr c :: tokenizeAux fuel rest

/-- The scan itself.  Each step consumes at least one character, so
`s.length` steps of fuel always suffice; the fuel only makes the recursion
structural. -/
def tokenize (s : List Char) : List Tok := tokenizeAux s.length s

/-- Reassembling the tokens gives back the scanned text. -/
def detok : List Tok → List Char
  | [] => []
  | Tok.marker ds :: ts => '[' :: (ds ++ ']' :: detok ts)
  | Tok.chr c :: ts => c :: detok ts

/-- `parseInt(num, 10)` on the non-empty digit run of a marker. -/
def digitsToNat (ds : List Char) : Nat :=
  ds.foldl (fun acc c => 10 * acc + (c.toNat - '0'.toNat)) 0

/-- The opening of the replacement `<span>` for an in-range marker, with
its `data-index` attribute value. -/
def spanOpen (index : Nat) : List Char :=
  "<span class=\"citation-marker\" data-index=\"".toList ++
    (toString index).toList ++ "\">".toList

/-- The closing of the replacement `<span>`. -/
def spanClose : List Char := "</span>".toList

/-- The replace callback of `ChatMessage`: for a marker `[n]`,
`index = parseInt(n) - 1`; when `0 ≤ index < sources.length` the marker is
wrapped in a citation `<span>` carrying `data-index="index"`, otherwise
the match is returned verbatim.  Plain characters pass through. -/
def renderTok (len : Nat) : Tok → List Char
  | Tok.marker ds =>
    let n := digitsToNat ds
    let m := '[' :: (ds ++ [']'])
    if 1 ≤ n ∧ n ≤ len then spanOpen (n - 1) ++ m ++ spanClose else m
  | Tok.chr c => [c]

/-- `parsedContent` in `ChatMessage.tsx`: with no sources (absent or
empty) the content is returned unchanged; otherwise every `[n]` marker is
substituted through the callback. -/
def parsedContentL (sources : List Citation) (content : List Char) : List Char :=
  if sources.length = 0 then content
  else ((tokenize content).map (renderTok sources.length)).flatten

/-- `parsedContent` on `String`. -/
def parsedContent (sources : List Citation) (content : String) : String :=
  ⟨parsedContentL sources content.toList⟩

/-! ## The retrieval engine contract (spec-modelled)

The repository snapshot contains only the web client and documentation;
the Retrieval/RAG engine itself (`mimi-core`) is not under `src/`.  The
two claims about it are therefore settled against definitions modelled
from the spec's words. -/

/-- Modelled from the spec: the Vector Store Adapter's result order —
"`search` must return results ordered by descending similarity score;
ties broken by chunk identifier ascending for determinism".  The adapter's
code is not in the repository snapshot. -/
def resultOrder (a b : String × ℚ) : Prop :=
  b.2 < a.2 ∨ (a.2 = b.2 ∧ a.1 ≤ b.1)

instance : DecidableRel resultOrder := fun a b => by
  unfold resultOrder; infer_instance

instance : IsTotal (String × ℚ) resultOrder := ⟨by
  intro a b
  rcases lt_trichotomy a.2 b.2 with h | h | h
  · exact Or.inr (Or.inl h)
  · rcases le_total a.1 b.1 with h1 | h1
    · exact Or.inl (Or.inr ⟨h, h1⟩)
    · exact Or.inr (Or.inr ⟨h.symm, h1⟩)
  · exact Or.inl (Or.inl h)⟩

instance : IsTrans (String × ℚ) resultOrder := ⟨by
  intro a b c hab hbc
  rcases hab with h1 | ⟨h1, h1'⟩ <;> rcases hbc with h2 | ⟨h2, h2'⟩
  · exact Or.inl (h2.trans h1)
  · exact Or.inl (h2.symm ▸ h1)
  · exact Or.inl (h1 ▸ h2)
  · exact Or.inr ⟨h1.trans h2, h1'.trans h2'⟩⟩

/-- Modelled from the spec: `search(query_vector, top_k, filters)` returns
the candidate `(chunk_id, score)` pairs sorted by `resultOrder` and cut to
`top_k`.  The adapter's code is not in the repository snapshot. -/
def search (candidates : List (String × ℚ)) (topK : Nat) : List (String × ℚ) :=
  (candidates.insertionSort resultOrder).take topK

/-- Modelled from the spec: the outcome of the optional LLM synthesis step
of the Retrieval/RAG Engine — either an answer with its citation list, or
an unreachable backend. -/
inductive LLMResult where
  | ok (answer : String) (citations : List Citation)
  | unreachable
  deriving Repr, DecidableEq

/-- Modelled from the spec: `ask(question, top_k) -> {answer, citations,
raw_chunks}` — "if the LLM backend is unreachable, the Engine must still
return the ranked chunks … graceful degradation, never a hard failure of
the whole query".  The engine's code is not in the repository snapshot;
`ranked` is the chunk list the retrieval step produced. -/
def ask (ranked : List Chunk) (llm : LLMResult) : AgentResponse :=
  match llm with
  | .ok ans cits => { answer := ans, citations := cits, raw_chunks := ranked }
  | .unreachable => { answer := "", citations := [], raw_chunks := ranked }

/-! ## Sample values used by witnesses -/

/-- A sample chunk with all optional fields absent and a low score. -/
def sampleChunk : Chunk :=
  { chunk_id := "c1", doc_id := "d1", source := "upload", path := "/a.md",
    score := 1/4, snippet := "stored snippet", full_text := none,
    section_title := none, char_start := none, char_end := none }

/-! # Theorems for the claims -/

/-- C1: every chunk of a query response is rendered by `SearchResults`
(in order, none dropped), and a rendered item carries the low-confidence
flag exactly when its score is strictly below the configured threshold. -/
theorem C1_results_rendering (threshold : ℚ) (chunks : List Chunk) :
    (renderSearchResults threshold chunks).map RenderedResult.chunk = chunks ∧
    ∀ r ∈ renderSearchResults threshold chunks,
      (r.lowConfidence = true ↔ r.chunk.score < threshold) := by
  constructor
  · simp only [renderSearchResults, List.map_map]
    have h : (RenderedResult.chunk ∘ renderResultItem threshold) = id := rfl
    rw [h, List.map_id]
  · intro r hr
    simp only [renderSearchResults, List.mem_map] at hr
    obtain ⟨c, _, rfl⟩ := hr
    simp [renderResultItem]

/-- Witness for C1 at a concrete threshold and chunk list. -/
theorem C1_results_rendering_witness :
    (renderSearchResults (1/2 : ℚ) [sampleChunk]).map RenderedResult.chunk
        = [sampleChunk] ∧
    ((renderResultItem (1/2 : ℚ) sampleChunk).lowConfidence = true ↔
      sampleChunk.score < (1/2 : ℚ)) :=
  ⟨(C1_results_rendering (1/2) [sampleChunk]).1,
   (C1_results_rendering (1/2) [sampleChunk]).2 _ (by
      simp [renderSearchResults])⟩

/-- C4 (spec-modelled): `ask` always returns the ranked chunks in
`raw_chunks`, and when the LLM backend is unreachable the answer is empty;
`ask` is a total function, so the query never fails as a whole. -/
theorem C4_ask_degrades (ranked : List Chunk) (llm : LLMResult) :
    (ask ranked llm).raw_chunks = ranked ∧
    (llm = .unreachable → (ask ranked llm).answer = "") := by
  cases llm <;> simp [ask]

/-- Witness for C4: an unreachable LLM backend with one ranked chunk. -/
theorem C4_ask_degrades_witness :
    (ask [sampleChunk] .unreachable).raw_chunks = [sampleChunk] ∧
    (ask [sampleChunk] .unreachable).answer = "" :=
  ⟨(C4_ask_degrades [sampleChunk] .unreachable).1,
   (C4_ask_degrades [sampleChunk] .unreachable).2 rfl⟩

/-- C5 (spec-modelled): the chunk sequence `search` returns is ordered by
non-increasing similarity score, with equal-score neighbours in ascending
chunk-identifier order. -/
theorem C5_search_sorted (candidates : List (String × ℚ)) (topK : Nat) :
    List.Pairwise
      (fun a b : String × ℚ => b.2 ≤ a.2 ∧ (a.2 = b.2 → a.1 ≤ b.1))
      (search candidates topK) := by
  have hs : List.Pairwise resultOrder (candidates.insertionSort resultOrder) :=
    List.sorted_insertionSort resultOrder candidates
  have ht : List.Pairwise resultOrder (search candidates topK) :=
    hs.sublist (List.take_sublist topK _)
  refine ht.imp ?_
  intro a b hab
  rcases hab with h | ⟨h, h'⟩
  · exact ⟨h.le, fun he => absurd (he ▸ h) (lt_irrefl _)⟩
  · exact ⟨h.ge, fun _ => h'⟩

/-- C6: the outward chunk record carries chunk id, document id, source,
path, score and snippet as total (always-present) fields, while full
text, section title and the character offsets are optional and may be
absent; every combination of field values is representable. -/
theorem C6_chunk_shape :
    (∀ c : Chunk,
      c = { chunk_id := c.chunk_id, doc_id := c.doc_id, source := c.source,
            path := c.path, score := c.score, snippet := c.snippet,
            full_text := c.full_text, section_title := c.section_title,
            char_start := c.char_start, char_end := c.char_end }) ∧
    (∃ c : Chunk, c.full_text = none ∧ c.section_title = none ∧
      c.char_start = none ∧ c.char_end = none) ∧
    (∀ (i d s p : String) (sc : ℚ) (sn : String) (ft st : Option String)
        (cs ce : Option Nat),
      ∃ c : Chunk, c.chunk_id = i ∧ c.doc_id = d ∧ c.source = s ∧
        c.path = p ∧ c.score = sc ∧ c.snippet = sn ∧ c.full_text = ft ∧
        c.section_title = st ∧ c.char_start = cs ∧ c.char_end = ce) := by
  refine ⟨fun c => by cases c; rfl, ⟨sampleChunk, rfl, rfl, rfl, rfl⟩, ?_⟩
  intro i d s p sc sn ft st cs ce
  exact ⟨⟨i, d, s, p, sc, sn, ft, st, cs, ce⟩,
    rfl, rfl, rfl, rfl, rfl, rfl, rfl, rfl, rfl, rfl⟩

/-- C7: `queryRAG` either resolves with exactly the complete response body
the transport delivered, or rejects carrying the error together with the
message `getErrorMessage` derives from it (timeout code, absent response,
or HTTP status); it never resolves from a failed transport. -/
theorem C7_queryRAG_complete_or_error
    (raw : Except AxiosError RAGQueryResponse) :
    ((∃ v, raw = .ok v ∧ queryRAG raw = .ok v) ∨
      (∃ e, raw = .error e ∧ queryRAG raw = .error (e, getErrorMessage e))) ∧
    (∀ e : AxiosError, e.code = some "ECONNABORTED" →
      getErrorMessage e = "Request timeout. Please try again.") ∧
    (∀ e : AxiosError, e.code ≠ some "ECONNABORTED" → e.responseStatus = none →
      getErrorMessage e = "Network error. Please check your connection.") := by
  refine ⟨?_, ?_, ?_⟩
  · cases raw with
    | ok v => exact Or.inl ⟨v, rfl, rfl⟩
    | error e => exact Or.inr ⟨e, rfl, rfl⟩
  · intro e he
    simp [getErrorMessage, he]
  · intro e he hs
    simp [getErrorMessage, he, hs]

/-- Witness for C7 at a concrete timeout error. -/
theorem C7_queryRAG_complete_or_error_witness :
    ((∃ v, (Except.error ⟨some "ECONNABORTED", none, none⟩ :
          Except AxiosError RAGQueryResponse) = .ok v ∧
        queryRAG (.error ⟨some "ECONNABORTED", none, none⟩) = .ok v) ∨
      (∃ e, (Except.error ⟨some "ECONNABORTED", none, none⟩ :
          Except AxiosError RAGQueryResponse) = .error e ∧
        queryRAG (.error ⟨some "ECONNABORTED", none, none⟩) =
          .error (e, getErrorMessage e))) ∧
    getErrorMessage ⟨some "ECONNABORTED", none, none⟩ =
      "Request timeout. Please try again." ∧
    getErrorMessage ⟨none, none, none⟩ =
      "Network error. Please check your connection." :=
  ⟨(C7_queryRAG_complete_or_error _).1,
   (C7_queryRAG_complete_or_error
      (.error ⟨some "ECONNABORTED", none, none⟩)).2.1 _ rfl,
   (C7_queryRAG_complete_or_error
      (.error ⟨none, none, none⟩)).2.2 ⟨none, none, none⟩ (by simp) rfl⟩

/-- C8: the agent availability probe answers `false` exactly when the
request failed with an HTTP 404 response; every other failure — including
a network error with no response at all — yields `true`. -/
theorem C8_agent_probe (r : Except AxiosError Unit) :
    (checkAgentAvailability r = false ↔
      ∃ e, r = .error e ∧ e.responseStatus = some 404) ∧
    (∀ e : AxiosError, r = .error e → e.responseStatus = none →
      checkAgentAvailability r = true) := by
  constructor
  · cases r with
    | ok _ => simp [checkAgentAvailability]
    | error e =>
      simp only [checkAgentAvailability, decide_eq_false_iff_not, not_not]
      constructor
      · intro h; exact ⟨e, rfl, h⟩
      · rintro ⟨e', he', h⟩
        cases he'
        exact h
  · rintro e rfl hn
    simp [checkAgentAvailability, hn]

/-- Witness for C8 at a concrete response-less network error. -/
theorem C8_agent_probe_witness :
    checkAgentAvailability (.error ⟨none, none, none⟩) = true :=
  (C8_agent_probe (.error ⟨none, none, none⟩)).2 ⟨none, none, none⟩ rfl rfl

/-! ## C2: chunk display text -/

/-- A chunk whose stored snippet is empty and whose full text is present
but empty: the divergence point between claim C2 and the code. -/
def emptyFullTextChunk : Chunk :=
  { sampleChunk with snippet := "", full_text := some "" }

/-- A chunk with an empty stored snippet and a non-empty full text. -/
def fullTextChunk : Chunk :=
  { sampleChunk with snippet := "", full_text := some "hello world" }

/-- A chunk with an empty stored snippet and no full text at all. -/
def bareChunk : Chunk :=
  { sampleChunk with snippet := "", full_text := none }

/-- C2 counterexample: for a chunk whose snippet is empty and whose full
text is *present but empty*, the code shows the placeholder, while the
claim (which requires only that the full text be present) prescribes the
snippet generated from that full text, i.e. the empty string. -/
theorem C2_display_counterexample :
    emptyFullTextChunk.snippet = "" ∧
    emptyFullTextChunk.full_text = some "" ∧
    getChunkDisplayText emptyFullTextChunk "q" = "No content available" ∧
    generateSnippet "" "q" 250 = "" ∧
    getChunkDisplayText emptyFullTextChunk "q" ≠ generateSnippet "" "q" 250 := by
  refine ⟨rfl, rfl, by decide, by decide, by decide⟩

/-- C2 (amended): the display text is the stored snippet whenever it is
non-empty; otherwise, when the full text is present *and non-empty*, the
snippet generated from it (by the stride-10 best-keyword-window scan of
`generateSnippet`, at the default maximum length 250); otherwise the fixed
placeholder. -/
theorem C2_display_text (chunk : Chunk) (query : String) :
    (chunk.snippet ≠ "" → getChunkDisplayText chunk query = chunk.snippet) ∧
    (chunk.snippet = "" → ∀ t, chunk.full_text = some t → t ≠ "" →
      getChunkDisplayText chunk query = generateSnippet t query 250) ∧
    (chunk.snippet = "" →
      (chunk.full_text = none ∨ chunk.full_text = some "") →
      getChunkDisplayText chunk query = "No content available") := by
  refine ⟨?_, ?_, ?_⟩
  · intro h
    simp [getChunkDisplayText, h]
  · intro hs t hft hne
    simp [getChunkDisplayText, hs, hft, hne]
  · intro hs hft
    rcases hft with h | h <;> simp [getChunkDisplayText, hs, h]

/-- Witness for C2 exercising all three display cases concretely. -/
theorem C2_display_text_witness :
    getChunkDisplayText sampleChunk "q" = sampleChunk.snippet ∧
    getChunkDisplayText fullTextChunk "q" =
      generateSnippet "hello world" "q" 250 ∧
    getChunkDisplayText bareChunk "q" = "No content available" :=
  ⟨(C2_display_text sampleChunk "q").1 (by decide),
   (C2_display_text fullTextChunk "q").2.1 rfl "hello world" rfl (by decide),
   (C2_display_text bareChunk "q").2.2 rfl (Or.inl rfl)⟩

/-! ## C9: `generateSnippet` edge cases -/

/-- Empty text yields the empty snippet. -/
theorem generateSnippetL_empty_text (query : List Char) (maxLen : Nat) :
    generateSnippetL [] query maxLen = [] := by
  unfold generateSnippetL
  rw [if_pos (Or.inl rfl)]
  exact List.take_nil

/-- Empty query yields the plain text truncation, no keyword scan. -/
theorem generateSnippetL_empty_query (text : List Char) (maxLen : Nat) :
    generateSnippetL text [] maxLen = text.take maxLen := by
  unfold generateSnippetL
  rw [if_pos (Or.inr rfl)]

/-- A non-empty text no longer than the window, with a non-empty query,
comes back whole: trimmed only, with no ellipsis on either side. -/
theorem generateSnippetL_short (text query : List Char) (maxLen : Nat)
    (ht : text ≠ []) (hq : query ≠ []) (hle : text.length ≤ maxLen) :
    generateSnippetL text query maxLen = jsTrim text := by
  unfold generateSnippetL
  rw [if_neg (by simp [ht, hq])]
  have hbw : bestWindow (text.map Char.toLower)
      (splitWsWords (query.map Char.toLower)) maxLen text.length = 0 := by
    unfold bestWindow
    simp [Nat.sub_eq_zero_of_le hle]
  simp only [hbw, Nat.zero_add, min_eq_right hle, lt_self_iff_false,
    if_false, jsSlice, List.take_length, List.drop_zero]

/-- C9 counterexample: with the empty query and the non-empty text `" a "`
(length 3 ≤ 250), the function returns the text un-trimmed, while the
claim's third postcondition prescribes the trimmed text `"a"`. -/
theorem C9_counterexample :
    (" a " : String) ≠ "" ∧ (" a " : String).length ≤ 250 ∧
    generateSnippet " a " "" 250 = " a " ∧
    jsTrim (" a " : String).toList = "a".toList ∧
    (" a " : String) ≠ "a" := by
  refine ⟨by decide, by decide, by decide, by decide, by decide⟩

/-- C9 (amended): empty text gives the empty snippet; an empty query gives
the first `maxLength` characters with no keyword search; and a non-empty
text of length at most `maxLength` together with a *non-empty* query gives
the whole text trimmed of surrounding whitespace, with no ellipsis. -/
theorem C9_generateSnippet_edge_cases (text query : String) (maxLen : Nat) :
    generateSnippet "" query maxLen = "" ∧
    (generateSnippet text "" maxLen).toList = text.toList.take maxLen ∧
    (text ≠ "" → query ≠ "" → text.length ≤ maxLen →
      (generateSnippet text query maxLen).toList = jsTrim text.toList) := by
  refine ⟨?_, ?_, ?_⟩
  · show String.mk (generateSnippetL "".toList query.toList maxLen) = ""
    rw [show ("" : String).toList = [] from rfl, generateSnippetL_empty_text]
  · show (String.mk (generateSnippetL text.toList "".toList maxLen)).data = _
    rw [show ("" : String).toList = [] from rfl, generateSnippetL_empty_query]
  · intro ht hq hle
    have ht' : text.toList ≠ [] := fun h =>
      ht (String.ext (h.trans rfl))
    have hq' : query.toList ≠ [] := fun h =>
      hq (String.ext (h.trans rfl))
    show (String.mk (generateSnippetL text.toList query.toList maxLen)).data = _
    rw [generateSnippetL_short text.toList query.toList maxLen ht' hq' hle]

/-- Witness for C9 at concrete inputs for each of the three clauses. -/
theorem C9_generateSnippet_edge_cases_witness :
    generateSnippet "" "query" 250 = "" ∧
    (generateSnippet "some text" "" 4).toList = "some text".toList.take 4 ∧
    (generateSnippet " hi there " "hi" 250).toList = jsTrim " hi there ".toList :=
  ⟨(C9_generateSnippet_edge_cases "x" "query" 250).1,
   (C9_generateSnippet_edge_cases "some text" "q" 4).2.1,
   (C9_generateSnippet_edge_cases " hi there " "hi" 250).2.2
     (by decide) (by decide) (by decide)⟩

/-! ## C3: citation-marker substitution -/

/-- With enough fuel, reassembling the scan's tokens restores the scanned
text: the tokenizer neither drops nor invents characters. -/
theorem detok_tokenizeAux :
    ∀ (fuel : Nat) (s : List Char), s.length ≤ fuel →
      detok (tokenizeAux fuel s) = s := by
  intro fuel
  induction fuel with
  | zero =>
    intro s hs
    have : s = [] := List.length_eq_zero.mp (Nat.le_zero.mp hs)
    subst this
    rfl
  | succ fuel ih =>
    intro s hs
    cases s with
    | nil => rfl
    | cons c rest =>
      by_cases hc : c = '[' ∧ rest.takeWhile Char.isDigit ≠ [] ∧
          (rest.dropWhile Char.isDigit).head? = some ']'
      · rw [tokenizeAux, if_pos hc]
        obtain ⟨hc1, _, hc3⟩ := hc
        cases hd : rest.dropWhile Char.isDigit with
        | nil => rw [hd] at hc3; exact absurd hc3 (by simp)
        | cons x xs =>
          rw [hd] at hc3
          have hx : x = ']' := by simpa using hc3
          subst hx
          have hlen : xs.length ≤ fuel := by
            have h1 : (rest.dropWhile Char.isDigit).length ≤ rest.length :=
              (List.dropWhile_sublist _).length_le
            rw [hd] at h1
            simp only [List.length_cons] at h1 hs
            omega
          have hsplit := List.takeWhile_append_dropWhile
            (p := Char.isDigit) (l := rest)
          rw [hd] at hsplit
          simp only [List.tail_cons, detok, ih xs hlen, hc1,
            List.cons.injEq, true_and]
          exact hsplit
      · rw [tokenizeAux, if_neg hc]
        have hlen : rest.length ≤ fuel := by
          simp only [List.length_cons] at hs
          omega
        simp only [detok, ih rest hlen]

/-- Reassembling the tokens gives back the content. -/
theorem detok_tokenize (s : List Char) : detok (tokenize s) = s :=
  detok_tokenizeAux s.length s le_rfl

/-- C3: citation-marker substitution is total and defensive.  With an
empty citation list the content is returned unchanged.  Otherwise the
content is decomposed into tokens — `[n]` markers and plain characters —
whose reassembly is exactly the content (nothing is lost, so the
substitution never fails), and each marker is rendered wrapped in a
citation span if and only if `1 ≤ n ≤ |citations|`; the span's
`data-index` is `n - 1`, which stays inside the citation list; an
out-of-range marker is reproduced verbatim. -/
theorem C3_citation_markers (sources : List Citation) (content : String) :
    (sources = [] → parsedContent sources content = content) ∧
    detok (tokenize content.toList) = content.toList ∧
    (sources ≠ [] → (parsedContent sources content).toList =
      ((tokenize content.toList).map (renderTok sources.length)).flatten) ∧
    (∀ ds : List Char, 1 ≤ digitsToNat ds → digitsToNat ds ≤ sources.length →
      renderTok sources.length (Tok.marker ds) =
        spanOpen (digitsToNat ds - 1) ++ ('[' :: (ds ++ [']'])) ++ spanClose ∧
      digitsToNat ds - 1 < sources.length) ∧
    (∀ ds : List Char,
      ¬(1 ≤ digitsToNat ds ∧ digitsToNat ds ≤ sources.length) →
      renderTok sources.length (Tok.marker ds) = '[' :: (ds ++ [']'])) := by
  refine ⟨?_, detok_tokenize _, ?_, ?_, ?_⟩
  · intro h
    subst h
    cases content
    rfl
  · intro h
    have hne : ¬ sources.length = 0 := by simpa using h
    show (String.mk (parsedContentL sources content.toList)).data = _
    rw [parsedContentL, if_neg hne]
  · intro ds h1 h2
    constructor
    · show (if 1 ≤ digitsToNat ds ∧ digitsToNat ds ≤ sources.length then _
        else _) = _
      rw [if_pos ⟨h1, h2⟩]
    · omega
  · intro ds h
    show (if 1 ≤ digitsToNat ds ∧ digitsToNat ds ≤ sources.length then _
      else _) = _
    rw [if_neg h]

/-- Witness for C3: an in-range marker `[1]`, an out-of-range marker `[2]`
and the empty-citation case, all concrete. -/
theorem C3_citation_markers_witness :
    parsedContent [] "See [1]" = "See [1]" ∧
    (parsedContent [⟨"d", "p"⟩] "See [1] and [2]").toList =
      ((tokenize "See [1] and [2]".toList).map (renderTok 1)).flatten ∧
    renderTok 1 (Tok.marker ['1']) =
      spanOpen 0 ++ ('[' :: (['1'] ++ [']'])) ++ spanClose ∧
    renderTok 1 (Tok.marker ['2']) = '[' :: (['2'] ++ [']']) :=
  ⟨(C3_citation_markers [] "See [1]").1 rfl,
   (C3_citation_markers [⟨"d", "p"⟩] "See [1] and [2]").2.2.1 (by simp),
   ((C3_citation_markers [⟨"d", "p"⟩] "See [1] and [2]").2.2.2.1 ['1']
     (by decide) (by decide)).1,
   (C3_citation_markers [⟨"d", "p"⟩] "See [1] and [2]").2.2.2.2 ['2']
     (by decide)⟩

/-! ## C10: keyword highlighting -/

/-- A case-insensitive head match needs at least `w.length` characters. -/
theorem matchesAt_length : ∀ (w s : List Char), matchesAt w s = true →
    w.length ≤ s.length := by
  intro w
  induction w with
  | nil => intro s _; exact Nat.zero_le _
  | cons a as ih =>
    intro s h
    cases s with
    | nil => exact absurd h (by simp [matchesAt])
    | cons b bs =>
      simp only [matchesAt, Bool.and_eq_true] at h
      exact Nat.succ_le_succ (ih bs h.2)

/-- A head match only looks at the first `w.length` characters. -/
theorem matchesAt_take_append : ∀ (w s t : List Char), matchesAt w s = true →
    matchesAt w (s.take w.length ++ t) = true := by
  intro w
  induction w with
  | nil => intro s t _; rfl
  | cons a as ih =>
    intro s t h
    cases s with
    | nil => exact absurd h (by simp [matchesAt])
    | cons b bs =>
      simp only [matchesAt, Bool.and_eq_true] at h
      simp only [List.length_cons, List.take_succ_cons, List.cons_append,
        matchesAt, Bool.and_eq_true]
      exact ⟨h.1, ih bs t h.2⟩

/-- Every list is a literal leading segment of itself followed by
anything. -/
theorem startsWithSeg_append_self : ∀ (p t : List Char),
    startsWithSeg p (p ++ t) = true := by
  intro p
  induction p with
  | nil => intro t; rfl
  | cons a as ih =>
    intro t
    simp only [List.cons_append, startsWithSeg, Bool.and_eq_true]
    exact ⟨by simp, ih t⟩

/-- The string assembled by a successful replace step is a wrapped
occurrence of the word. -/
theorem wrappedAt_construct (w s r : List Char) (h : matchesAt w s = true) :
    wrappedAt w (wrapOpen ++ s.take w.length ++ wrapClose ++ r) = true := by
  have hlen : (s.take w.length).length = w.length := by
    rw [List.length_take]
    exact min_eq_left (matchesAt_length w s h)
  have hassoc : wrapOpen ++ s.take w.length ++ wrapClose ++ r =
      wrapOpen ++ (s.take w.length ++ (wrapClose ++ r)) := by
    simp [List.append_assoc]
  rw [hassoc]
  unfold wrappedAt
  rw [List.drop_left]
  simp only [Bool.and_eq_true]
  refine ⟨⟨startsWithSeg_append_self _ _, matchesAt_take_append w s _ h⟩, ?_⟩
  have hdrop := List.drop_left (s.take w.length) (wrapClose ++ r)
  rw [hlen] at hdrop
  rw [hdrop]
  exact startsWithSeg_append_self _ _

/-- A wrapped occurrence at the head is a wrapped occurrence. -/
theorem hasWrappedCI_of_wrappedAt (w s : List Char)
    (h : wrappedAt w s = true) : hasWrappedCI w s = true := by
  cases s with
  | nil => exact h
  | cons c rest => simp [hasWrappedCI, h]

/-- A wrapped occurrence survives prepending a character. -/
theorem hasWrappedCI_cons (w : List Char) (c : Char) (rest : List Char)
    (h : hasWrappedCI w rest = true) : hasWrappedCI w (c :: rest) = true := by
  simp [hasWrappedCI, h]

/-- If a non-empty word occurs (case-insensitively) in the text, the
global replace of that single word wraps an occurrence of it. -/
theorem replaceCIAux_wraps (w : List Char) (hw : w ≠ []) :
    ∀ (fuel : Nat) (s : List Char), s.length ≤ fuel → occursCI w s = true →
      hasWrappedCI w (replaceCIAux w fuel s) = true := by
  intro fuel
  induction fuel with
  | zero =>
    intro s hs hocc
    have hnil : s = [] := List.length_eq_zero.mp (Nat.le_zero.mp hs)
    subst hnil
    cases w with
    | nil => exact absurd rfl hw
    | cons a as => exact absurd hocc (by simp [occursCI, matchesAt])
  | succ fuel ih =>
    intro s hs hocc
    cases s with
    | nil =>
      cases w with
      | nil => exact absurd rfl hw
      | cons a as => exact absurd hocc (by simp [occursCI, matchesAt])
    | cons c rest =>
      by_cases hm : matchesAt w (c :: rest) = true
      · rw [replaceCIAux,
          if_pos (⟨hw, hm⟩ : w ≠ [] ∧ matchesAt w (c :: rest) = true)]
        exact hasWrappedCI_of_wrappedAt _ _
          (wrappedAt_construct w (c :: rest) _ hm)
      · rw [replaceCIAux, if_neg (fun hand => hm hand.2)]
        have hocc' : occursCI w rest = true := by
          simp only [occursCI, Bool.or_eq_true] at hocc
          rcases hocc with h | h
          · exact absurd h hm
          · exact h
        have hlen : rest.length ≤ fuel := by
          simp only [List.length_cons] at hs
          omega
        exact hasWrappedCI_cons _ _ _ (ih rest hlen hocc')

/-- C10 counterexample: in text `"ab"` with query `"a ab"`, the query word
`"ab"` occurs in the text, yet the output contains no wrapped occurrence of
it at all — the markup inserted for the earlier word `"a"` broke it apart —
so not every occurrence of every query word is wrapped. -/
theorem C10_counterexample :
    "ab".toList ∈ splitWsWords "a ab".toList ∧
    occursCI "ab".toList "ab".toList = true ∧
    hasWrappedCI "ab".toList (highlightText "ab" "a ab").toList = false := by
  refine ⟨by decide, by decide, by decide⟩

/-- C10 (amended): `highlightText` is a total function; an empty query
returns the text unchanged; and for a query consisting of a single word —
matched literally because `escapeRegExp` escapes every regex
metacharacter — any case-insensitive occurrence of that word in the text
guarantees a wrapped occurrence in the output.  With several query words,
occurrences can be destroyed by the markup inserted for earlier words. -/
theorem C10_highlight (text query : String) :
    (query = "" → highlightText text query = text) ∧
    (∀ w : List Char, splitWsWords query.toList = [w] →
      occursCI w text.toList = true →
      hasWrappedCI w (highlightText text query).toList = true) := by
  constructor
  · intro h
    subst h
    cases text
    rfl
  · intro w hw hocc
    have hq : query.toList ≠ [] := by
      intro h
      rw [h] at hw
      rw [show splitWsWords [] = [] from rfl] at hw
      exact List.noConfusion hw
    have hwne : w ≠ [] := by
      have hmem : w ∈ splitWsWords query.toList := by
        rw [hw]
        exact List.mem_singleton_self w
      unfold splitWsWords at hmem
      have h2 := (List.mem_filter.mp hmem).2
      simpa using h2
    show hasWrappedCI w
      (String.mk (highlightTextL text.toList query.toList)).data = true
    rw [highlightTextL, if_neg hq, hw]
    simp only [List.foldl_cons, List.foldl_nil]
    exact replaceCIAux_wraps w hwne text.toList.length text.toList le_rfl hocc

/-- Witness for C10: the empty-query clause and a concrete single-word
highlight. -/
theorem C10_highlight_witness :
    highlightText "The quick fox" "" = "The quick fox" ∧
    hasWrappedCI "quick".toList
      (highlightText "The quick fox" "quick").toList = true :=
  ⟨(C10_highlight "The quick fox" "").1 rfl,
   (C10_highlight "The quick fox" "quick").2 "quick".toList
     (by decide) (by decide)⟩

end Mimi
